import Mathlib

/-!
Verification of the ventry inventory manager's persistence layer.

The development shallowly embeds the SQLite-backed `DatabaseManager`
(`src/database.py`) and the bill-listing query of `BillsScreen.load_bills`
(`src/main.py`) as pure Lean functions over an explicit database state.

Modelling conventions:
* SQLite REAL quantities and prices become `Rat` (the spec allows
  fractional stock; floating-point rounding is not in scope of the claims).
* Each table is a `List` of row structures kept in insertion order; the
  AUTOINCREMENT id counters are carried in the state, so ids are fresh and
  strictly increasing exactly as with SQLite AUTOINCREMENT.
* A transaction that rolls back returns the state unchanged; a commit
  returns the mutated state.  Storage-level exceptions (disk errors) have
  no counterpart in the model, so the happy path always commits.
* Foreign keys are declared in the schema but PRAGMA foreign_keys is never
  enabled by `connect`, so the model enforces no referential integrity,
  exactly like the running program.
-/

/- The library seals rational arithmetic against unfolding; concrete states
here are tiny, so evaluation by `decide` is both safe and wanted. -/
unseal Rat.add Rat.sub Rat.mul Rat.ofScientific Rat.inv

/-- Row of the `items` table.  `created_at` is a wall-clock timestamp that no
claim observes, so it is omitted. -/
structure Item where
  id : Nat
  item_name : String
  current_stock : Rat
  purchase_price : Rat
  sale_price : Rat
deriving DecidableEq

/-- Row of the `purchases` table. -/
structure PurchaseRec where
  id : Nat
  bill_no : String
  date : String
  item_id : Nat
  quantity : Rat
  rate : Rat
  total : Rat
deriving DecidableEq

/-- Row of the `sales` table. -/
structure SaleRec where
  id : Nat
  bill_no : String
  date : String
  item_id : Nat
  quantity : Rat
  rate : Rat
  total : Rat
deriving DecidableEq

/-- The CHECK constraint of `stock_log.type`. -/
inductive LogType where
  | purchase
  | sale
deriving DecidableEq

/-- Row of the `stock_log` table. -/
structure StockLogRec where
  id : Nat
  item_id : Nat
  change_qty : Rat
  type : LogType
  date : String
  bill_no : String
deriving DecidableEq

/-- The whole persisted state: the four tables plus the AUTOINCREMENT
counters (SQLite AUTOINCREMENT never reuses an id, even after deletes). -/
structure DB where
  items : List Item
  purchases : List PurchaseRec
  sales : List SaleRec
  stock_log : List StockLogRec
  next_item_id : Nat
  next_purchase_id : Nat
  next_sale_id : Nat
  next_log_id : Nat
deriving DecidableEq

/-- A freshly created database: empty tables, AUTOINCREMENT counters at 1. -/
def DB.empty : DB := ⟨[], [], [], [], 1, 1, 1, 1⟩

/-- `DatabaseManager.add_item`: INSERT INTO items; the UNIQUE constraint on
`item_name` raises IntegrityError (returns `false`) on a duplicate name. -/
def add_item (db : DB) (item_name : String) (purchase_price sale_price : Rat) :
    Bool × DB :=
  if db.items.any (fun it => it.item_name == item_name) then
    (false, db)
  else
    (true, { db with
      items := db.items ++ [⟨db.next_item_id, item_name, 0, purchase_price, sale_price⟩],
      next_item_id := db.next_item_id + 1 })

/-- `DatabaseManager.update_item`: UPDATE items SET name/prices WHERE id;
fails on a name collision with another row (UNIQUE), else rewrites every
row whose id matches (id is the primary key, so at most one). -/
def update_item (db : DB) (item_id : Nat) (item_name : String)
    (purchase_price sale_price : Rat) : Bool × DB :=
  if db.items.any (fun it => it.item_name == item_name && !(it.id == item_id)) then
    (false, db)
  else
    (true, { db with
      items := db.items.map (fun it =>
        if it.id == item_id then
          { it with item_name := item_name, purchase_price := purchase_price,
                    sale_price := sale_price }
        else it) })

/-- `DatabaseManager.delete_item`: count referencing purchase and sale rows;
refuse when either count is positive, otherwise DELETE FROM items WHERE id. -/
def delete_item (db : DB) (item_id : Nat) : Bool × DB :=
  let purchase_count := (db.purchases.filter (fun p => p.item_id == item_id)).length
  let sale_count := (db.sales.filter (fun s => s.item_id == item_id)).length
  if purchase_count > 0 || sale_count > 0 then
    (false, db)
  else
    (true, { db with items := db.items.filter (fun it => !(it.id == item_id)) })

/-- `DatabaseManager.get_item_by_id`: SELECT * FROM items WHERE id (first row). -/
def get_item_by_id (db : DB) (item_id : Nat) : Option Item :=
  db.items.find? (fun it => it.id == item_id)

/-- `DatabaseManager.add_purchase`: one transaction that inserts the purchase
row (total = quantity * rate), adds `quantity` to the stock of the matching
item and overwrites its `purchase_price`, and appends a stock_log row.
With foreign keys off, an `item_id` matching no item is accepted: the UPDATE
then touches zero rows and the transaction still commits. -/
def add_purchase (db : DB) (bill_no date : String) (item_id : Nat)
    (quantity rate : Rat) : Bool × DB :=
  let total := quantity * rate
  let db1 : DB := { db with
    purchases := db.purchases ++
      [⟨db.next_purchase_id, bill_no, date, item_id, quantity, rate, total⟩],
    next_purchase_id := db.next_purchase_id + 1 }
  let db2 : DB := { db1 with
    items := db1.items.map (fun it =>
      if it.id == item_id then
        { it with current_stock := it.current_stock + quantity,
                  purchase_price := rate }
      else it) }
  let db3 : DB := { db2 with
    stock_log := db2.stock_log ++
      [⟨db2.next_log_id, item_id, quantity, LogType.purchase, date, bill_no⟩],
    next_log_id := db2.next_log_id + 1 }
  (true, db3)

/-- The message `add_sale` formats when stock is short of the request. -/
def insufficientStockMsg (available : Rat) : String :=
  "Insufficient stock! Available: " ++ toString available

/-- `DatabaseManager.add_sale`: inside one transaction, read the item's
`current_stock`; roll back with "Item not found" when the id matches no row,
roll back with the insufficient-stock message when `current_stock < quantity`
(strict comparison), otherwise insert the sale row, subtract the quantity
from the item's stock, overwrite its `sale_price`, and append a stock_log
row with `change_qty = -quantity`. -/
def add_sale (db : DB) (bill_no date : String) (item_id : Nat)
    (quantity rate : Rat) : (Bool × String) × DB :=
  match db.items.find? (fun it => it.id == item_id) with
  | none => ((false, "Item not found"), db)
  | some it =>
    if it.current_stock < quantity then
      ((false, insufficientStockMsg it.current_stock), db)
    else
      let total := quantity * rate
      let db1 : DB := { db with
        sales := db.sales ++
          [⟨db.next_sale_id, bill_no, date, item_id, quantity, rate, total⟩],
        next_sale_id := db.next_sale_id + 1 }
      let db2 : DB := { db1 with
        items := db1.items.map (fun j =>
          if j.id == item_id then
            { j with current_stock := j.current_stock - quantity,
                     sale_price := rate }
          else j) }
      let db3 : DB := { db2 with
        stock_log := db2.stock_log ++
          [⟨db2.next_log_id, item_id, -quantity, LogType.sale, date, bill_no⟩],
        next_log_id := db2.next_log_id + 1 }
      ((true, "Success"), db3)

/-- `DatabaseManager.get_last_purchase_bill_no`: SELECT bill_no ... ORDER BY
id DESC LIMIT 1; ids grow with insertion, so this is the last stored row. -/
def get_last_purchase_bill_no (db : DB) : String :=
  match db.purchases.getLast? with
  | some p => p.bill_no
  | none => "P0000"

/-- `DatabaseManager.get_last_sale_bill_no`. -/
def get_last_sale_bill_no (db : DB) : String :=
  match db.sales.getLast? with
  | some s => s.bill_no
  | none => "S0000"

/-! ## Strings: code-point order and helpers

SQLite's default BINARY collation and Python's string comparison both order
these ASCII strings by code point, so the model compares `String.data`
directly (the built-in `String.ltb` does not reduce in the kernel, which
would block `decide` on concrete states). -/

/-- Code-point comparison of characters. -/
def charLt (a b : Char) : Bool := a.toNat < b.toNat

/-- Lexicographic code-point order on character lists. -/
def strLtB : List Char → List Char → Bool
  | [], [] => false
  | [], _ :: _ => true
  | _ :: _, [] => false
  | a :: as, b :: bs => charLt a b || (a == b && strLtB as bs)

/-- Lexicographic code-point order on strings. -/
def strLt (s t : String) : Bool := strLtB s.data t.data

/-- Number of characters of a string (`len` in Python). -/
def strLen (s : String) : Nat := s.data.length

/-- Drop the first `n` characters (`s[n:]` in Python). -/
def strDrop (s : String) (n : Nat) : String := String.mk (s.data.drop n)

/-- ASCII lower-casing of one character, the case folding SQLite's LIKE
applies to ASCII letters. -/
def asciiLower (c : Char) : Char :=
  if 'A' ≤ c && c ≤ 'Z' then Char.ofNat (c.toNat + 32) else c

/-- Whether `p` occurs as a contiguous sublist of the second list. -/
def listIsInfixB [BEq α] (p : List α) : List α → Bool
  | [] => p.isEmpty
  | b :: bs => p.isPrefixOf (b :: bs) || listIsInfixB p bs

/-- The `column LIKE pattern-with-both-sides-wildcards` filter the screens
build: case-insensitive (ASCII) substring containment of `pat` in `s`.
A `%` or `_` typed inside the search term itself is not modelled. -/
def likeContains (s pat : String) : Bool :=
  listIsInfixB (pat.data.map asciiLower) (s.data.map asciiLower)

/-! ## Bill-number sequencing (`DatabaseManager.get_next_bill_no`) -/

/-- Python's `int(str)` on the strings this program feeds it: surrounding
whitespace is stripped, an optional single sign precedes one or more
decimal digits.  (Digit-grouping underscores and non-ASCII digits, which
`int` also accepts, never occur here and are not modelled.) -/
def pyInt? (s : String) : Option Int :=
  let t := ((s.data.dropWhile Char.isWhitespace).reverse.dropWhile
      Char.isWhitespace).reverse
  let digitsVal : List Char → Nat := fun ds =>
    ds.foldl (fun a c => 10 * a + (c.toNat - 48)) 0
  match t with
  | '-' :: ds =>
    if !ds.isEmpty && ds.all Char.isDigit then some (-(digitsVal ds : Int)) else none
  | '+' :: ds =>
    if !ds.isEmpty && ds.all Char.isDigit then some (digitsVal ds : Int) else none
  | ds =>
    if !ds.isEmpty && ds.all Char.isDigit then some (digitsVal ds : Int) else none

/-- Left-pad a numeral with zeros up to width `w`. -/
def zfill (s : String) (w : Nat) : String :=
  String.mk (List.replicate (w - s.data.length) '0') ++ s

/-- Python's `f"{n:04d}"`: minimum width 4, zero filled, the sign counted
in the width. -/
def pad4 (n : Int) : String :=
  if n < 0 then "-" ++ zfill (toString n.natAbs) 3 else zfill (toString n.toNat) 4

/-- `DatabaseManager.get_next_bill_no`: when the last bill string has at
least two characters, drop its FIRST character (`last_bill[1:]` — not the
prefix argument), parse the rest with `int`, add one and zero-pad to four
digits; on a short string or a parse failure fall back to `{prefix}0001`. -/
def get_next_bill_no (pfx last_bill : String) : String :=
  if 1 < strLen last_bill then
    match pyInt? (strDrop last_bill 1) with
    | some n => pfx ++ pad4 (n + 1)
    | none => pfx ++ "0001"
  else pfx ++ "0001"

/-- The sequencing rule exactly as the specification words it: strip the
PREFIX (all of it) from the last bill number, parse the remaining digits,
increment and re-zero-pad; `{prefix}0001` when parsing fails or no prior
bill exists (the empty string parses to nothing).  Kept separate from
`get_next_bill_no` so the two can be compared. -/
def nextBillNoSpec (pfx last_bill : String) : String :=
  match pyInt? (strDrop last_bill (strLen pfx)) with
  | some n => pfx ++ pad4 (n + 1)
  | none => pfx ++ "0001"

/-! ## Reporting queries (`get_all_items`, `search_items`)

Both run

  SELECT i.*, COALESCE(SUM(p.quantity),0), COALESCE(SUM(s.quantity),0)
  FROM items i LEFT JOIN purchases p ON i.id = p.item_id
               LEFT JOIN sales s ON i.id = s.item_id
  GROUP BY i.id ORDER BY i.item_name

whose SQL semantics the model reproduces: the two LEFT JOINs form, per
item, the cross product of its purchase rows and its sale rows (padded
with one NULL row on an empty side), so each SUM counts every row of its
table once PER ROW OF THE OTHER TABLE. -/

/-- One result row of the item listing queries. -/
structure ItemRow where
  id : Nat
  item_name : String
  purchased_qty : Rat
  sold_qty : Rat
  current_stock : Rat
  purchase_price : Rat
  sale_price : Rat
deriving DecidableEq

/-- The GROUP BY group of one item: `SUM(p.quantity)` over the join is the
sum over the purchase rows repeated once per sale row (at least once), and
symmetrically; `COALESCE(..., 0)` turns the all-NULL sum of a side with no
rows into 0. -/
def itemAggRow (db : DB) (it : Item) : ItemRow :=
  let ps := db.purchases.filter (fun p => p.item_id == it.id)
  let ss := db.sales.filter (fun s => s.item_id == it.id)
  let purchased_qty : Rat :=
    if ps.isEmpty then 0 else ((ps.map (fun p => p.quantity)).sum) * ((max ss.length 1 : Nat) : Rat)
  let sold_qty : Rat :=
    if ss.isEmpty then 0 else ((ss.map (fun s => s.quantity)).sum) * ((max ps.length 1 : Nat) : Rat)
  ⟨it.id, it.item_name, purchased_qty, sold_qty, it.current_stock,
    it.purchase_price, it.sale_price⟩

/-- Stable insertion into a list sorted by the strict order `lt`: the new
element passes everything it strictly precedes and stops, so existing
equal-key elements keep their places. -/
def insertBy (lt : α → α → Bool) (a : α) : List α → List α
  | [] => [a]
  | b :: bs => if lt a b then a :: b :: bs else b :: insertBy lt a bs

/-- A stable sort by the strict order `lt`, extensionally the sort SQLite's
ORDER BY and Python's `list.sort` perform (both are stable). -/
def stableSortBy (lt : α → α → Bool) (l : List α) : List α :=
  l.foldl (fun acc x => insertBy lt x acc) []

/-- ORDER BY i.item_name (ascending). -/
def ltItemName (a b : Item) : Bool := strLt a.item_name b.item_name

/-- `DatabaseManager.get_all_items`. -/
def get_all_items (db : DB) : List ItemRow :=
  (stableSortBy ltItemName db.items).map (itemAggRow db)

/-- `DatabaseManager.search_items`: same query with
`WHERE i.item_name LIKE %term%`. -/
def search_items (db : DB) (term : String) : List ItemRow :=
  (stableSortBy ltItemName (db.items.filter (fun it => likeContains it.item_name term))).map
    (itemAggRow db)

/-! ## The bills screen (`BillsScreen.load_bills`, `src/main.py`) -/

/-- One row of the combined bill listing.  The screen's SELECT drops the
numeric id after ORDER BY has used it; the model keeps it in `rec_id` so
the ordering can be stated. -/
structure BillRow where
  kind : String
  rec_id : Nat
  bill_no : String
  date : String
  item_name : String
  quantity : Rat
  rate : Rat
  total : Rat
deriving DecidableEq

/-- One row of `SELECT ... FROM purchases p JOIN items i ON p.item_id = i.id
WHERE p.bill_no LIKE %term%`: the inner join drops a purchase whose
`item_id` matches no item (`id` is the primary key, so `find?` is the
lookup), and the screen prepends the "P" tag. -/
def purchRow? (db : DB) (term : String) (p : PurchaseRec) : Option BillRow :=
  match db.items.find? (fun it => it.id == p.item_id) with
  | some it =>
    if likeContains p.bill_no term then
      some ⟨"P", p.id, p.bill_no, p.date, it.item_name, p.quantity, p.rate, p.total⟩
    else none
  | none => none

/-- The purchases half of the bill listing. -/
def purchaseBillRows (db : DB) (term : String) : List BillRow :=
  db.purchases.filterMap (purchRow? db term)

/-- The sales half of the join, tagged "S". -/
def saleRow? (db : DB) (term : String) (s : SaleRec) : Option BillRow :=
  match db.items.find? (fun it => it.id == s.item_id) with
  | some it =>
    if likeContains s.bill_no term then
      some ⟨"S", s.id, s.bill_no, s.date, it.item_name, s.quantity, s.rate, s.total⟩
    else none
  | none => none

/-- The sales half of the bill listing. -/
def saleBillRows (db : DB) (term : String) : List BillRow :=
  db.sales.filterMap (saleRow? db term)

/-- ORDER BY date DESC, id DESC of the per-table SELECTs. -/
def ltBillKey (a b : BillRow) : Bool :=
  strLt b.date a.date || (a.date == b.date && decide (b.rec_id < a.rec_id))

/-- `all_bills.sort(key=lambda x: x[2], reverse=True)`: date descending
only. -/
def ltBillDate (a b : BillRow) : Bool := strLt b.date a.date

/-- The type filter combo box. -/
def billTypeIncludesPurchases (t : String) : Bool :=
  t == "All Bills" || t == "Purchases Only"

/-- The type filter combo box. -/
def billTypeIncludesSales (t : String) : Bool :=
  t == "All Bills" || t == "Sales Only"

/-- `BillsScreen.load_bills`: fetch the filtered purchase rows (date desc,
id desc), then the filtered sale rows likewise, concatenate purchases
before sales, and stable-sort the concatenation by date descending only. -/
def load_bills (db : DB) (bill_type search_term : String) : List BillRow :=
  let purchases :=
    if billTypeIncludesPurchases bill_type then
      stableSortBy ltBillKey (purchaseBillRows db search_term)
    else []
  let sales :=
    if billTypeIncludesSales bill_type then
      stableSortBy ltBillKey (saleBillRows db search_term)
    else []
  stableSortBy ltBillDate (purchases ++ sales)

/-! ## Operation sequences over the contract -/

/-- One call of the persistence contract (the operations the stock claims
quantify over). -/
inductive DbOp where
  | addItem (item_name : String) (purchase_price sale_price : Rat)
  | deleteItem (item_id : Nat)
  | purchase (bill_no date : String) (item_id : Nat) (quantity rate : Rat)
  | sale (bill_no date : String) (item_id : Nat) (quantity rate : Rat)
deriving DecidableEq

/-- The state an operation leaves behind (failed calls leave the state as
they found it, which the operations already encode). -/
def applyOp (db : DB) : DbOp → DB
  | .addItem n pp sp => (add_item db n pp sp).2
  | .deleteItem iid => (delete_item db iid).2
  | .purchase b d iid q r => (add_purchase db b d iid q r).2
  | .sale b d iid q r => (add_sale db b d iid q r).2

/-- Run a sequence of contract calls. -/
def applyOps (db : DB) (ops : List DbOp) : DB := ops.foldl applyOp db

/-- Whether an operation aimed at an item can actually see one: a purchase
must name an existing item (sales check this themselves and item CRUD needs
no side condition). -/
def opTargetsOK (db : DB) : DbOp → Bool
  | .purchase _ _ iid _ _ => db.items.any (fun it => it.id == iid)
  | _ => true

/-- Every operation of the sequence targets an item existing when it runs. -/
def validOps : DB → List DbOp → Bool
  | _, [] => true
  | db, op :: ops => opTargetsOK db op && validOps (applyOp db op) ops

/-- The positivity pre-validation the UI performs before calling the
ledger: quantities of purchases and sales are strictly positive. -/
def opQtyPos : DbOp → Bool
  | .purchase _ _ _ q _ => decide (0 < q)
  | .sale _ _ _ q _ => decide (0 < q)
  | _ => true

/-! ## Invariants -/

/-- Total quantity of the purchase rows referencing an item. -/
def sumPurchQty (l : List PurchaseRec) (iid : Nat) : Rat :=
  ((l.filter (fun p => p.item_id == iid)).map (fun p => p.quantity)).sum

/-- Total quantity of the sale rows referencing an item. -/
def sumSaleQty (l : List SaleRec) (iid : Nat) : Rat :=
  ((l.filter (fun s => s.item_id == iid)).map (fun s => s.quantity)).sum

/-- Every stored item's cached `current_stock` equals its committed
purchase total minus its committed sale total. -/
def StockInv (db : DB) : Prop :=
  ∀ it ∈ db.items, it.current_stock = sumPurchQty db.purchases it.id - sumSaleQty db.sales it.id

/-- All item ids and all item references in transaction rows lie below the
item AUTOINCREMENT counter (true of every state the program itself reaches
through existing items, and what rules out a later `add_item` reusing an
id some orphan transaction row already references). -/
def RefsBounded (db : DB) : Prop :=
  (∀ it ∈ db.items, it.id < db.next_item_id) ∧
  (∀ p ∈ db.purchases, p.item_id < db.next_item_id) ∧
  (∀ s ∈ db.sales, s.item_id < db.next_item_id)

/-! ## Concrete states used by the counterexamples and evaluations -/

/-- A purchase recorded against item id 1 while no item exists, followed by
`add_item`, whose AUTOINCREMENT hands out that same id 1. -/
def dbPhantom : DB :=
  applyOps DB.empty
    [DbOp.purchase "P0001" "2024-01-01" 1 5 1,
     DbOp.addItem "Widget" 0 0]

/-- One item, one purchase of quantity 10, two sales of quantities 2 and 3
(all committed: stock stays sufficient throughout). -/
def dbFanout : DB :=
  applyOps DB.empty
    [DbOp.addItem "Widget" 10 15,
     DbOp.purchase "P0001" "2024-01-01" 1 10 2,
     DbOp.sale "S0001" "2024-01-02" 1 2 5,
     DbOp.sale "S0002" "2024-01-03" 1 3 5]

/-- One item; a purchase and then a sale committed on the same date, so the
sale row is the most recently inserted row of that date. -/
def dbSameDate : DB :=
  applyOps DB.empty
    [DbOp.addItem "Bolt" 0 0,
     DbOp.purchase "P0001" "2024-01-05" 1 10 5,
     DbOp.sale "S0001" "2024-01-05" 1 2 8]

/-! ## Order lemmas for the code-point string order -/

theorem strLtB_irrefl (l : List Char) : strLtB l l = false := by
  induction l with
  | nil => rfl
  | cons a as ih => simp [strLtB, charLt, ih]

theorem strLtB_asymm :
    ∀ l m : List Char, strLtB l m = true → strLtB m l = false
  | [], [], h => by simp [strLtB] at h
  | [], _ :: _, _ => rfl
  | _ :: _, [], h => by simp [strLtB] at h
  | a :: as, b :: bs, h => by
    rw [Bool.eq_false_iff]
    intro hba
    simp only [strLtB, charLt, Bool.or_eq_true, Bool.and_eq_true,
      decide_eq_true_eq, beq_iff_eq] at h hba
    rcases h with h | ⟨rfl, h⟩
    · rcases hba with hba | ⟨e, hba⟩
      · omega
      · subst e; omega
    · rcases hba with hba | ⟨e, hba⟩
      · omega
      · have hf := strLtB_asymm as bs h
        simp [hf] at hba

theorem strLtB_trans :
    ∀ l m n : List Char, strLtB l m = true → strLtB m n = true → strLtB l n = true
  | [], [], _, h1, _ => by simp [strLtB] at h1
  | [], _ :: _, [], _, h2 => by simp [strLtB] at h2
  | [], _ :: _, _ :: _, _, _ => rfl
  | _ :: _, [], _, h1, _ => by simp [strLtB] at h1
  | _ :: _, _ :: _, [], _, h2 => by simp [strLtB] at h2
  | a :: as, b :: bs, c :: cs, h1, h2 => by
    simp only [strLtB, charLt, Bool.or_eq_true, Bool.and_eq_true,
      decide_eq_true_eq, beq_iff_eq] at h1 h2 ⊢
    rcases h1 with h1 | ⟨rfl, h1⟩ <;> rcases h2 with h2 | ⟨rfl, h2⟩
    · exact Or.inl (by omega)
    · exact Or.inl h1
    · exact Or.inl h2
    · exact Or.inr ⟨rfl, strLtB_trans as bs cs h1 h2⟩

theorem strLt_irrefl (s : String) : strLt s s = false := strLtB_irrefl s.data

theorem strLt_asymm {s t : String} (h : strLt s t = true) : strLt t s = false :=
  strLtB_asymm s.data t.data h

theorem strLt_trans {s t u : String} (h1 : strLt s t = true) (h2 : strLt t u = true) :
    strLt s u = true :=
  strLtB_trans s.data t.data u.data h1 h2

/-! ## Lemmas about `insertBy` and `stableSortBy` -/

theorem mem_insertBy (lt : α → α → Bool) (a : α) :
    ∀ (l : List α) (x : α), x ∈ insertBy lt a l ↔ x = a ∨ x ∈ l
  | [], x => by simp [insertBy]
  | b :: bs, x => by
    by_cases h : lt a b
    · simp [insertBy, h]
    · simp only [insertBy, h, Bool.false_eq_true, if_false, List.mem_cons,
        mem_insertBy lt a bs x]
      tauto

theorem perm_insertBy (lt : α → α → Bool) (a : α) :
    ∀ l : List α, (insertBy lt a l).Perm (a :: l)
  | [] => List.Perm.refl _
  | b :: bs => by
    by_cases h : lt a b
    · simp [insertBy, h]
    · simpa [insertBy, h] using
        ((perm_insertBy lt a bs).cons b).trans (List.Perm.swap a b bs)

theorem pairwise_insertBy {R : α → α → Prop} {lt : α → α → Bool}
    (hR1 : ∀ a b, lt a b = true → R a b)
    (hR2 : ∀ a b c, lt a b = true → R b c → R a c) (a : α) :
    ∀ l : List α, l.Pairwise R → (∀ x ∈ l, lt a x = false → R x a) →
      (insertBy lt a l).Pairwise R
  | [], _, _ => List.pairwise_singleton R a
  | b :: bs, hl, ha => by
    rcases List.pairwise_cons.mp hl with ⟨hb, hbs⟩
    by_cases h : lt a b = true
    · have e : insertBy lt a (b :: bs) = a :: b :: bs := by simp [insertBy, h]
      rw [e]
      refine List.pairwise_cons.mpr ⟨?_, hl⟩
      intro y hy
      rcases List.mem_cons.mp hy with rfl | hy
      · exact hR1 a y h
      · exact hR2 a b y h (hb y hy)
    · have e : insertBy lt a (b :: bs) = b :: insertBy lt a bs := by
        simp [insertBy, h]
      rw [e]
      refine List.pairwise_cons.mpr ⟨?_, ?_⟩
      · intro y hy
        rcases (mem_insertBy lt a bs y).mp hy with rfl | hy
        · exact ha b (List.mem_cons_self b bs) (Bool.eq_false_iff.mpr h)
        · exact hb y hy
      · exact pairwise_insertBy hR1 hR2 a bs hbs
          (fun x hx => ha x (List.mem_cons_of_mem b hx))

theorem foldl_insertBy_pairwise {R : α → α → Prop} {lt : α → α → Bool}
    (hR1 : ∀ a b, lt a b = true → R a b)
    (hR2 : ∀ a b c, lt a b = true → R b c → R a c) :
    ∀ (l acc : List α), acc.Pairwise R →
      (∀ x ∈ acc, ∀ a ∈ l, lt a x = false → R x a) →
      l.Pairwise (fun p q => lt q p = false → R p q) →
      (l.foldl (fun acc x => insertBy lt x acc) acc).Pairwise R
  | [], acc, hacc, _, _ => hacc
  | a :: rest, acc, hacc, hcross, hl => by
    rcases List.pairwise_cons.mp hl with ⟨ha, hrest⟩
    refine foldl_insertBy_pairwise hR1 hR2 rest (insertBy lt a acc) ?_ ?_ hrest
    · exact pairwise_insertBy hR1 hR2 a acc hacc
        (fun x hx => hcross x hx a (List.mem_cons_self a rest))
    · intro x hx r hr hfalse
      rcases (mem_insertBy lt a acc x).mp hx with rfl | hx
      · exact ha r hr hfalse
      · exact hcross x hx r (List.mem_cons_of_mem a hr) hfalse

theorem pairwise_stableSortBy {R : α → α → Prop} {lt : α → α → Bool}
    (hR1 : ∀ a b, lt a b = true → R a b)
    (hR2 : ∀ a b c, lt a b = true → R b c → R a c)
    (l : List α) (hl : l.Pairwise (fun p q => lt q p = false → R p q)) :
    (stableSortBy lt l).Pairwise R :=
  foldl_insertBy_pairwise hR1 hR2 l [] (List.Pairwise.nil) (by simp) hl

theorem foldl_insertBy_perm (lt : α → α → Bool) :
    ∀ l acc : List α, (l.foldl (fun acc x => insertBy lt x acc) acc).Perm (acc ++ l)
  | [], acc => by simp
  | a :: rest, acc => by
    refine (foldl_insertBy_perm lt rest (insertBy lt a acc)).trans ?_
    refine (List.Perm.append_right rest ((perm_insertBy lt a acc))).trans ?_
    exact (List.perm_middle).symm

theorem perm_stableSortBy (lt : α → α → Bool) (l : List α) :
    (stableSortBy lt l).Perm l := by
  simpa using foldl_insertBy_perm lt l []

theorem mem_stableSortBy (lt : α → α → Bool) (l : List α) (x : α) :
    x ∈ stableSortBy lt l ↔ x ∈ l :=
  (perm_stableSortBy lt l).mem_iff

/-! ## Unfolding lemmas for the ledger operations -/

theorem add_item_snd_dup (db : DB) (n : String) (pp sp : Rat)
    (h : db.items.any (fun it => it.item_name == n) = true) :
    (add_item db n pp sp).2 = db := by
  rw [add_item, if_pos h]

theorem add_item_snd_new (db : DB) (n : String) (pp sp : Rat)
    (h : ¬ db.items.any (fun it => it.item_name == n) = true) :
    (add_item db n pp sp).2 =
      { db with items := db.items ++ [⟨db.next_item_id, n, 0, pp, sp⟩],
                next_item_id := db.next_item_id + 1 } := by
  rw [add_item, if_neg h]

theorem add_purchase_eq (db : DB) (bill date : String) (iid : Nat) (q r : Rat) :
    add_purchase db bill date iid q r =
      (true,
        { db with
          purchases := db.purchases ++
            [⟨db.next_purchase_id, bill, date, iid, q, r, q * r⟩],
          next_purchase_id := db.next_purchase_id + 1,
          items := db.items.map (fun it =>
            if it.id == iid then
              { it with current_stock := it.current_stock + q, purchase_price := r }
            else it),
          stock_log := db.stock_log ++
            [⟨db.next_log_id, iid, q, LogType.purchase, date, bill⟩],
          next_log_id := db.next_log_id + 1 }) := rfl

theorem add_sale_eq_notfound (db : DB) (bill date : String) (iid : Nat) (q r : Rat)
    (h : db.items.find? (fun it => it.id == iid) = none) :
    add_sale db bill date iid q r = ((false, "Item not found"), db) := by
  simp only [add_sale, h]

theorem add_sale_eq_insufficient (db : DB) (bill date : String) (iid : Nat)
    (q r : Rat) (it : Item)
    (hfind : db.items.find? (fun i => i.id == iid) = some it)
    (hlt : it.current_stock < q) :
    add_sale db bill date iid q r = ((false, insufficientStockMsg it.current_stock), db) := by
  simp only [add_sale, hfind]
  rw [if_pos hlt]

theorem add_sale_eq_commit (db : DB) (bill date : String) (iid : Nat)
    (q r : Rat) (it : Item)
    (hfind : db.items.find? (fun i => i.id == iid) = some it)
    (hge : ¬ it.current_stock < q) :
    add_sale db bill date iid q r =
      ((true, "Success"),
        { db with
          sales := db.sales ++ [⟨db.next_sale_id, bill, date, iid, q, r, q * r⟩],
          next_sale_id := db.next_sale_id + 1,
          items := db.items.map (fun j =>
            if j.id == iid then
              { j with current_stock := j.current_stock - q, sale_price := r }
            else j),
          stock_log := db.stock_log ++
            [⟨db.next_log_id, iid, -q, LogType.sale, date, bill⟩],
          next_log_id := db.next_log_id + 1 }) := by
  simp only [add_sale, hfind]
  rw [if_neg hge]

/-! ## Helper lemmas for sums and lookups -/

theorem sumPurchQty_append (l₁ l₂ : List PurchaseRec) (iid : Nat) :
    sumPurchQty (l₁ ++ l₂) iid = sumPurchQty l₁ iid + sumPurchQty l₂ iid := by
  simp [sumPurchQty, List.filter_append]

theorem sumPurchQty_single (p : PurchaseRec) (iid : Nat) :
    sumPurchQty [p] iid = if p.item_id == iid then p.quantity else 0 := by
  by_cases h : p.item_id == iid <;> simp [sumPurchQty, List.filter, h]

theorem sumPurchQty_eq_zero {l : List PurchaseRec} {iid : Nat}
    (h : ∀ p ∈ l, p.item_id ≠ iid) : sumPurchQty l iid = 0 := by
  have he : l.filter (fun p => p.item_id == iid) = [] :=
    List.filter_eq_nil_iff.mpr (fun p hp => by simp [h p hp])
  simp [sumPurchQty, he]

theorem sumSaleQty_append (l₁ l₂ : List SaleRec) (iid : Nat) :
    sumSaleQty (l₁ ++ l₂) iid = sumSaleQty l₁ iid + sumSaleQty l₂ iid := by
  simp [sumSaleQty, List.filter_append]

theorem sumSaleQty_single (s : SaleRec) (iid : Nat) :
    sumSaleQty [s] iid = if s.item_id == iid then s.quantity else 0 := by
  by_cases h : s.item_id == iid <;> simp [sumSaleQty, List.filter, h]

theorem sumSaleQty_eq_zero {l : List SaleRec} {iid : Nat}
    (h : ∀ s ∈ l, s.item_id ≠ iid) : sumSaleQty l iid = 0 := by
  have he : l.filter (fun s => s.item_id == iid) = [] :=
    List.filter_eq_nil_iff.mpr (fun s hs => by simp [h s hs])
  simp [sumSaleQty, he]

theorem map_eq_self_of {f : α → α} :
    ∀ l : List α, (∀ x ∈ l, f x = x) → l.map f = l
  | [], _ => rfl
  | a :: as, h => by
    rw [List.map_cons, h a (List.mem_cons_self a as),
      map_eq_self_of as (fun x hx => h x (List.mem_cons_of_mem a hx))]

theorem find?_items_unique :
    ∀ (l : List Item) (iid : Nat) (it0 it : Item),
      l.Pairwise (fun a b => a.id ≠ b.id) →
      l.find? (fun i => i.id == iid) = some it0 →
      it ∈ l → it.id = iid → it = it0
  | [], _, _, _, _, hfind, _, _ => by simp at hfind
  | x :: xs, iid, it0, it, hpw, hfind, hmem, hid => by
    rcases List.pairwise_cons.mp hpw with ⟨hx, hxs⟩
    by_cases h : (x.id == iid) = true
    · have e : (x :: xs).find? (fun i => i.id == iid) = some x :=
        List.find?_cons_of_pos xs h
      rw [e] at hfind
      have hx0 : x = it0 := Option.some.inj hfind
      rcases List.mem_cons.mp hmem with rfl | hmem
      · exact hx0
      · exact absurd (by rw [hid, ← (beq_iff_eq.mp h)]) (hx it hmem)
    · have e : (x :: xs).find? (fun i => i.id == iid) = xs.find? (fun i => i.id == iid) :=
        List.find?_cons_of_neg xs h
      rw [e] at hfind
      rcases List.mem_cons.mp hmem with rfl | hmem
      · exact absurd (by simpa using hid) h
      · exact find?_items_unique xs iid it0 it hxs hfind hmem hid

/-! ## Preservation of the stock equation (claim C2) -/

theorem stockinv_add_purchase (db : DB) (bill date : String) (iid : Nat) (q r : Rat)
    (h : StockInv db) : StockInv (add_purchase db bill date iid q r).2 := by
  rw [add_purchase_eq]
  intro it' hmem'
  rcases List.mem_map.mp hmem' with ⟨it, hmem, rfl⟩
  have hbase := h it hmem
  by_cases hbeq : (it.id == iid) = true
  · have hid : it.id = iid := beq_iff_eq.mp hbeq
    rw [if_pos hbeq]
    show it.current_stock + q =
      sumPurchQty (db.purchases ++ [⟨db.next_purchase_id, bill, date, iid, q, r, q * r⟩]) it.id -
        sumSaleQty db.sales it.id
    rw [sumPurchQty_append, sumPurchQty_single]
    have hc : (iid == it.id) = true := beq_iff_eq.mpr hid.symm
    rw [if_pos hc, hbase]
    ring
  · have hid : it.id ≠ iid := fun e => hbeq (beq_iff_eq.mpr e)
    rw [if_neg hbeq]
    show it.current_stock =
      sumPurchQty (db.purchases ++ [⟨db.next_purchase_id, bill, date, iid, q, r, q * r⟩]) it.id -
        sumSaleQty db.sales it.id
    rw [sumPurchQty_append, sumPurchQty_single]
    have hc : ¬ (iid == it.id) = true := fun e => hid (beq_iff_eq.mp e).symm
    rw [if_neg hc, add_zero]
    exact hbase

theorem stockinv_add_sale (db : DB) (bill date : String) (iid : Nat) (q r : Rat)
    (h : StockInv db) : StockInv (add_sale db bill date iid q r).2 := by
  cases hfind : db.items.find? (fun i => i.id == iid) with
  | none => rw [add_sale_eq_notfound db bill date iid q r hfind]; exact h
  | some it0 =>
    by_cases hlt : it0.current_stock < q
    · rw [add_sale_eq_insufficient db bill date iid q r it0 hfind hlt]; exact h
    · rw [add_sale_eq_commit db bill date iid q r it0 hfind hlt]
      intro it' hmem'
      rcases List.mem_map.mp hmem' with ⟨it, hmem, rfl⟩
      have hbase := h it hmem
      by_cases hbeq : (it.id == iid) = true
      · have hid : it.id = iid := beq_iff_eq.mp hbeq
        rw [if_pos hbeq]
        show it.current_stock - q =
          sumPurchQty db.purchases it.id -
            sumSaleQty (db.sales ++ [⟨db.next_sale_id, bill, date, iid, q, r, q * r⟩]) it.id
        rw [sumSaleQty_append, sumSaleQty_single]
        have hc : (iid == it.id) = true := beq_iff_eq.mpr hid.symm
        rw [if_pos hc, hbase]
        ring
      · have hid : it.id ≠ iid := fun e => hbeq (beq_iff_eq.mpr e)
        rw [if_neg hbeq]
        show it.current_stock =
          sumPurchQty db.purchases it.id -
            sumSaleQty (db.sales ++ [⟨db.next_sale_id, bill, date, iid, q, r, q * r⟩]) it.id
        rw [sumSaleQty_append, sumSaleQty_single]
        have hc : ¬ (iid == it.id) = true := fun e => hid (beq_iff_eq.mp e).symm
        rw [if_neg hc, add_zero]
        exact hbase

theorem stockinv_add_item (db : DB) (n : String) (pp sp : Rat)
    (h : StockInv db) (hb : RefsBounded db) : StockInv (add_item db n pp sp).2 := by
  by_cases hdup : db.items.any (fun it => it.item_name == n) = true
  · rw [add_item_snd_dup db n pp sp hdup]; exact h
  · rw [add_item_snd_new db n pp sp hdup]
    intro it hmem
    rcases List.mem_append.mp hmem with hmem | hmem
    · exact h it hmem
    · have he : it = ⟨db.next_item_id, n, 0, pp, sp⟩ := by simpa using hmem
      subst he
      show (0 : Rat) =
        sumPurchQty db.purchases db.next_item_id - sumSaleQty db.sales db.next_item_id
      rw [sumPurchQty_eq_zero (fun p hp => Nat.ne_of_lt (hb.2.1 p hp)),
        sumSaleQty_eq_zero (fun s hs => Nat.ne_of_lt (hb.2.2 s hs))]
      ring

theorem delete_item_snd_cases (db : DB) (iid : Nat) :
    (delete_item db iid).2 = db ∨
    (delete_item db iid).2 =
      { db with items := db.items.filter (fun it => !(it.id == iid)) } := by
  by_cases h : ((decide ((List.filter (fun p => p.item_id == iid) db.purchases).length > 0)) ||
      (decide ((List.filter (fun s => s.item_id == iid) db.sales).length > 0))) = true
  · left
    simp only [delete_item]
    rw [if_pos h]
  · right
    simp only [delete_item]
    rw [if_neg h]

theorem stockinv_delete_item (db : DB) (iid : Nat) (h : StockInv db) :
    StockInv (delete_item db iid).2 := by
  rcases delete_item_snd_cases db iid with e | e
  · rw [e]; exact h
  · rw [e]
    intro it hmem
    exact h it (List.mem_filter.mp hmem).1

/-! ## Preservation of the id bounds -/

theorem refsbounded_add_item (db : DB) (n : String) (pp sp : Rat)
    (hb : RefsBounded db) : RefsBounded (add_item db n pp sp).2 := by
  by_cases hdup : db.items.any (fun it => it.item_name == n) = true
  · rw [add_item_snd_dup db n pp sp hdup]; exact hb
  · rw [add_item_snd_new db n pp sp hdup]
    refine ⟨?_, fun p hp => Nat.lt_succ_of_lt (hb.2.1 p hp),
      fun s hs => Nat.lt_succ_of_lt (hb.2.2 s hs)⟩
    intro it hmem
    rcases List.mem_append.mp hmem with hmem | hmem
    · exact Nat.lt_succ_of_lt (hb.1 it hmem)
    · have he : it = ⟨db.next_item_id, n, 0, pp, sp⟩ := by simpa using hmem
      subst he
      exact Nat.lt_succ_self _

theorem refsbounded_delete_item (db : DB) (iid : Nat) (hb : RefsBounded db) :
    RefsBounded (delete_item db iid).2 := by
  rcases delete_item_snd_cases db iid with e | e
  · rw [e]; exact hb
  · rw [e]
    exact ⟨fun it hmem => hb.1 it (List.mem_filter.mp hmem).1, hb.2.1, hb.2.2⟩

theorem refsbounded_add_purchase (db : DB) (bill date : String) (iid : Nat) (q r : Rat)
    (hb : RefsBounded db) (hiid : iid < db.next_item_id) :
    RefsBounded (add_purchase db bill date iid q r).2 := by
  rw [add_purchase_eq]
  refine ⟨?_, ?_, hb.2.2⟩
  · intro it' hmem'
    rcases List.mem_map.mp hmem' with ⟨it, hmem, rfl⟩
    by_cases hbeq : (it.id == iid) = true
    · rw [if_pos hbeq]
      exact hb.1 it hmem
    · rw [if_neg hbeq]
      exact hb.1 it hmem
  · intro p hp
    rcases List.mem_append.mp hp with hp | hp
    · exact hb.2.1 p hp
    · have he : p = ⟨db.next_purchase_id, bill, date, iid, q, r, q * r⟩ := by simpa using hp
      subst he
      exact hiid

theorem refsbounded_add_sale (db : DB) (bill date : String) (iid : Nat) (q r : Rat)
    (hb : RefsBounded db) : RefsBounded (add_sale db bill date iid q r).2 := by
  cases hfind : db.items.find? (fun i => i.id == iid) with
  | none => rw [add_sale_eq_notfound db bill date iid q r hfind]; exact hb
  | some it0 =>
    by_cases hlt : it0.current_stock < q
    · rw [add_sale_eq_insufficient db bill date iid q r it0 hfind hlt]; exact hb
    · rw [add_sale_eq_commit db bill date iid q r it0 hfind hlt]
      have hiid : iid < db.next_item_id := by
        have hmem0 := List.mem_of_find?_eq_some hfind
        have hpred := List.find?_some hfind
        have hid0 : it0.id = iid := by simpa using hpred
        exact hid0 ▸ hb.1 it0 hmem0
      refine ⟨?_, hb.2.1, ?_⟩
      · intro it' hmem'
        rcases List.mem_map.mp hmem' with ⟨it, hmem, rfl⟩
        by_cases hbeq : (it.id == iid) = true
        · rw [if_pos hbeq]
          exact hb.1 it hmem
        · rw [if_neg hbeq]
          exact hb.1 it hmem
      · intro s hs
        rcases List.mem_append.mp hs with hs | hs
        · exact hb.2.2 s hs
        · have he : s = ⟨db.next_sale_id, bill, date, iid, q, r, q * r⟩ := by simpa using hs
          subst he
          exact hiid

theorem applyOp_stockinv (db : DB) (op : DbOp) (h : StockInv db) (hb : RefsBounded db)
    (hop : opTargetsOK db op = true) :
    StockInv (applyOp db op) ∧ RefsBounded (applyOp db op) := by
  cases op with
  | addItem n pp sp =>
    exact ⟨stockinv_add_item db n pp sp h hb, refsbounded_add_item db n pp sp hb⟩
  | deleteItem iid =>
    exact ⟨stockinv_delete_item db iid h, refsbounded_delete_item db iid hb⟩
  | purchase bill date iid q r =>
    have hiid : iid < db.next_item_id := by
      simp only [opTargetsOK, List.any_eq_true] at hop
      rcases hop with ⟨it, hmem, hbeq⟩
      have hid : it.id = iid := by simpa using hbeq
      exact hid ▸ hb.1 it hmem
    exact ⟨stockinv_add_purchase db bill date iid q r h,
      refsbounded_add_purchase db bill date iid q r hb hiid⟩
  | sale bill date iid q r =>
    exact ⟨stockinv_add_sale db bill date iid q r h,
      refsbounded_add_sale db bill date iid q r hb⟩

theorem applyOps_stockinv :
    ∀ (ops : List DbOp) (db : DB), StockInv db → RefsBounded db →
      validOps db ops = true → StockInv (applyOps db ops)
  | [], _, h, _, _ => h
  | op :: ops, db, h, hb, hv => by
    have hv' : (opTargetsOK db op && validOps (applyOp db op) ops) = true := hv
    simp only [Bool.and_eq_true] at hv'
    rcases hv' with ⟨h1, h2⟩
    obtain ⟨hs, hbs⟩ := applyOp_stockinv db op h hb h1
    exact applyOps_stockinv ops (applyOp db op) hs hbs h2

/-! ## Preservation of nonnegative stock (claim C8) -/

/-- The items table as the program maintains it: primary-key ids are
pairwise distinct and below the AUTOINCREMENT counter. -/
def ItemsWF (db : DB) : Prop :=
  db.items.Pairwise (fun a b => a.id ≠ b.id) ∧ ∀ it ∈ db.items, it.id < db.next_item_id

/-- Every stored item's cached stock is nonnegative. -/
def StockNonneg (db : DB) : Prop := ∀ it ∈ db.items, 0 ≤ it.current_stock

theorem wf_nonneg_add_item (db : DB) (n : String) (pp sp : Rat)
    (hw : ItemsWF db) (hn : StockNonneg db) :
    ItemsWF (add_item db n pp sp).2 ∧ StockNonneg (add_item db n pp sp).2 := by
  by_cases hdup : db.items.any (fun it => it.item_name == n) = true
  · rw [add_item_snd_dup db n pp sp hdup]; exact ⟨hw, hn⟩
  · rw [add_item_snd_new db n pp sp hdup]
    refine ⟨⟨?_, ?_⟩, ?_⟩
    · refine List.pairwise_append.mpr ⟨hw.1, List.pairwise_singleton _ _, ?_⟩
      intro a ha b hb
      have hb' : b = ⟨db.next_item_id, n, 0, pp, sp⟩ := by simpa using hb
      subst hb'
      exact Nat.ne_of_lt (hw.2 a ha)
    · intro it hmem
      rcases List.mem_append.mp hmem with hmem | hmem
      · exact Nat.lt_succ_of_lt (hw.2 it hmem)
      · have he : it = ⟨db.next_item_id, n, 0, pp, sp⟩ := by simpa using hmem
        subst he
        exact Nat.lt_succ_self _
    · intro it hmem
      rcases List.mem_append.mp hmem with hmem | hmem
      · exact hn it hmem
      · have he : it = ⟨db.next_item_id, n, 0, pp, sp⟩ := by simpa using hmem
        subst he
        exact le_refl 0

theorem wf_nonneg_delete_item (db : DB) (iid : Nat)
    (hw : ItemsWF db) (hn : StockNonneg db) :
    ItemsWF (delete_item db iid).2 ∧ StockNonneg (delete_item db iid).2 := by
  rcases delete_item_snd_cases db iid with e | e
  · rw [e]; exact ⟨hw, hn⟩
  · rw [e]
    exact ⟨⟨hw.1.filter _, fun it hmem => hw.2 it (List.mem_filter.mp hmem).1⟩,
      fun it hmem => hn it (List.mem_filter.mp hmem).1⟩

theorem wf_nonneg_add_purchase (db : DB) (bill date : String) (iid : Nat) (q r : Rat)
    (hw : ItemsWF db) (hn : StockNonneg db) (hq : 0 < q) :
    ItemsWF (add_purchase db bill date iid q r).2 ∧
      StockNonneg (add_purchase db bill date iid q r).2 := by
  rw [add_purchase_eq]
  refine ⟨⟨?_, ?_⟩, ?_⟩
  · rw [List.pairwise_map]
    refine hw.1.imp ?_
    intro a b hab
    by_cases ha : (a.id == iid) = true <;> by_cases hb : (b.id == iid) = true <;>
      simp only [if_pos, if_neg, ha, hb] <;> exact hab
  · intro it' hmem'
    rcases List.mem_map.mp hmem' with ⟨it, hmem, rfl⟩
    by_cases hbeq : (it.id == iid) = true
    · rw [if_pos hbeq]; exact hw.2 it hmem
    · rw [if_neg hbeq]; exact hw.2 it hmem
  · intro it' hmem'
    rcases List.mem_map.mp hmem' with ⟨it, hmem, rfl⟩
    by_cases hbeq : (it.id == iid) = true
    · rw [if_pos hbeq]
      show (0 : Rat) ≤ it.current_stock + q
      exact add_nonneg (hn it hmem) (le_of_lt hq)
    · rw [if_neg hbeq]; exact hn it hmem

theorem wf_nonneg_add_sale (db : DB) (bill date : String) (iid : Nat) (q r : Rat)
    (hw : ItemsWF db) (hn : StockNonneg db) :
    ItemsWF (add_sale db bill date iid q r).2 ∧
      StockNonneg (add_sale db bill date iid q r).2 := by
  cases hfind : db.items.find? (fun i => i.id == iid) with
  | none => rw [add_sale_eq_notfound db bill date iid q r hfind]; exact ⟨hw, hn⟩
  | some it0 =>
    by_cases hlt : it0.current_stock < q
    · rw [add_sale_eq_insufficient db bill date iid q r it0 hfind hlt]; exact ⟨hw, hn⟩
    · rw [add_sale_eq_commit db bill date iid q r it0 hfind hlt]
      refine ⟨⟨?_, ?_⟩, ?_⟩
      · rw [List.pairwise_map]
        refine hw.1.imp ?_
        intro a b hab
        by_cases ha : (a.id == iid) = true <;> by_cases hb : (b.id == iid) = true <;>
          simp only [if_pos, if_neg, ha, hb] <;> exact hab
      · intro it' hmem'
        rcases List.mem_map.mp hmem' with ⟨it, hmem, rfl⟩
        by_cases hbeq : (it.id == iid) = true
        · rw [if_pos hbeq]; exact hw.2 it hmem
        · rw [if_neg hbeq]; exact hw.2 it hmem
      · intro it' hmem'
        rcases List.mem_map.mp hmem' with ⟨it, hmem, rfl⟩
        by_cases hbeq : (it.id == iid) = true
        · have hid : it.id = iid := beq_iff_eq.mp hbeq
          have heq : it = it0 := find?_items_unique db.items iid it0 it hw.1 hfind hmem hid
          rw [if_pos hbeq]
          show (0 : Rat) ≤ it.current_stock - q
          rw [heq]
          exact sub_nonneg.mpr (not_lt.mp hlt)
        · rw [if_neg hbeq]; exact hn it hmem

theorem applyOp_nonneg (db : DB) (op : DbOp) (hw : ItemsWF db) (hn : StockNonneg db)
    (hq : opQtyPos op = true) :
    ItemsWF (applyOp db op) ∧ StockNonneg (applyOp db op) := by
  cases op with
  | addItem n pp sp => exact wf_nonneg_add_item db n pp sp hw hn
  | deleteItem iid => exact wf_nonneg_delete_item db iid hw hn
  | purchase bill date iid q r =>
    have hq' : 0 < q := by simpa [opQtyPos] using hq
    exact wf_nonneg_add_purchase db bill date iid q r hw hn hq'
  | sale bill date iid q r => exact wf_nonneg_add_sale db bill date iid q r hw hn

theorem applyOps_nonneg :
    ∀ (ops : List DbOp) (db : DB), ItemsWF db → StockNonneg db →
      ops.all opQtyPos = true → StockNonneg (applyOps db ops)
  | [], _, _, hn, _ => hn
  | op :: ops, db, hw, hn, hq => by
    have hq' : (opQtyPos op && ops.all opQtyPos) = true := hq
    simp only [Bool.and_eq_true] at hq'
    obtain ⟨hw', hn'⟩ := applyOp_nonneg db op hw hn hq'.1
    exact applyOps_nonneg ops (applyOp db op) hw' hn' hq'.2

/-! ## Claim theorems -/

/-- C1: when the requested item exists but its `current_stock` is strictly
below the requested quantity, `add_sale` returns failure carrying the
available quantity in its message, and the database — every row of every
table and all counters — is exactly the one it started from, so no
SaleRecord and no StockLogEntry is inserted and no stock changes. -/
theorem sale_insufficient_stock_rolls_back (db : DB) (bill date : String) (iid : Nat)
    (q r : Rat) (it : Item)
    (hfind : db.items.find? (fun i => i.id == iid) = some it)
    (hlt : it.current_stock < q) :
    add_sale db bill date iid q r = ((false, insufficientStockMsg it.current_stock), db) :=
  add_sale_eq_insufficient db bill date iid q r it hfind hlt

/-- Witness for C1: in the state `dbSameDate` item 1 holds stock 8; selling
100 fails with the message carrying 8 and returns the state unchanged. -/
theorem sale_insufficient_stock_rolls_back_w :
    add_sale dbSameDate "S0002" "2024-01-06" 1 100 9 =
      ((false, insufficientStockMsg 8), dbSameDate) :=
  sale_insufficient_stock_rolls_back dbSameDate "S0002" "2024-01-06" 1 100 9
    ⟨1, "Bolt", 8, 5, 8⟩ (by decide) (by decide)

/-- C3: a purchase for an existing item commits with all four effects: the
one new PurchaseRecord with `total = quantity * rate`, the stock increment
and `purchase_price` overwrite on that item, the one new StockLogEntry with
`+quantity`, and nothing else: sales are untouched and every other item row
survives unchanged.  (The embedding has no storage failures, so the
operation always succeeds; the rollback clause of the claim is about
storage exceptions outside the model.) -/
theorem purchase_commits_and_records (db : DB) (bill date : String) (iid : Nat)
    (q r : Rat) (it : Item) (hmem : it ∈ db.items) (hid : it.id = iid) :
    (add_purchase db bill date iid q r).1 = true ∧
    (add_purchase db bill date iid q r).2.purchases =
      db.purchases ++ [⟨db.next_purchase_id, bill, date, iid, q, r, q * r⟩] ∧
    (add_purchase db bill date iid q r).2.sales = db.sales ∧
    (add_purchase db bill date iid q r).2.stock_log =
      db.stock_log ++ [⟨db.next_log_id, iid, q, LogType.purchase, date, bill⟩] ∧
    { it with current_stock := it.current_stock + q, purchase_price := r } ∈
      (add_purchase db bill date iid q r).2.items ∧
    ∀ other ∈ db.items, other.id ≠ iid →
      other ∈ (add_purchase db bill date iid q r).2.items := by
  rw [add_purchase_eq]
  refine ⟨rfl, rfl, rfl, rfl, ?_, ?_⟩
  · have hbeq : (it.id == iid) = true := beq_iff_eq.mpr hid
    refine List.mem_map.mpr ⟨it, hmem, ?_⟩
    dsimp only
    rw [if_pos hbeq]
  · intro other hmem' hne
    have hbeq : ¬ (other.id == iid) = true := fun e => hne (beq_iff_eq.mp e)
    refine List.mem_map.mpr ⟨other, hmem', ?_⟩
    dsimp only
    rw [if_neg hbeq]

/-- Witness for C3 at a concrete state: item 1 of `dbSameDate` (stock 8). -/
theorem purchase_commits_and_records_w :
    (add_purchase dbSameDate "P0002" "2024-01-06" 1 4 6).1 = true ∧
    ({ id := 1, item_name := "Bolt", current_stock := 12, purchase_price := 6,
       sale_price := 8 } : Item) ∈ (add_purchase dbSameDate "P0002" "2024-01-06" 1 4 6).2.items := by
  have h := purchase_commits_and_records dbSameDate "P0002" "2024-01-06" 1 4 6
    ⟨1, "Bolt", 8, 5, 8⟩ (by decide) (by decide)
  refine ⟨h.1, ?_⟩
  have hm := h.2.2.2.2.1
  exact (by decide :
    ({ id := 1, item_name := "Bolt", current_stock := 12, purchase_price := 6,
       sale_price := 8 } : Item) =
    { id := 1, item_name := "Bolt", current_stock := (8 : Rat) + 4, purchase_price := 6,
      sale_price := 8 }) ▸ hm

/-- C7: `delete_item` succeeds exactly when no purchase row and no sale row
references the item; on success the item rows with that id are removed and
nothing else changes, and on failure the whole state is returned intact. -/
theorem delete_item_iff_no_transactions (db : DB) (iid : Nat) :
    ((delete_item db iid).1 = true ↔
      (∀ p ∈ db.purchases, p.item_id ≠ iid) ∧ (∀ s ∈ db.sales, s.item_id ≠ iid)) ∧
    ((delete_item db iid).1 = true →
      (delete_item db iid).2 =
        { db with items := db.items.filter (fun it => !(it.id == iid)) }) ∧
    ((delete_item db iid).1 = false → (delete_item db iid).2 = db) := by
  by_cases h : ((decide ((List.filter (fun p => p.item_id == iid) db.purchases).length > 0)) ||
      (decide ((List.filter (fun s => s.item_id == iid) db.sales).length > 0))) = true
  · have e : delete_item db iid = (false, db) := by
      simp only [delete_item]; rw [if_pos h]
    rw [e]
    refine ⟨⟨fun hc => absurd hc (by simp), ?_⟩, fun hc => absurd hc (by simp), fun _ => rfl⟩
    rintro ⟨hp, hs⟩
    exfalso
    simp only [Bool.or_eq_true, decide_eq_true_eq] at h
    rcases h with h | h
    · obtain ⟨p, hpmem⟩ := List.exists_mem_of_length_pos h
      have hm := List.mem_filter.mp hpmem
      exact hp p hm.1 (by simpa using hm.2)
    · obtain ⟨s, hsmem⟩ := List.exists_mem_of_length_pos h
      have hm := List.mem_filter.mp hsmem
      exact hs s hm.1 (by simpa using hm.2)
  · have e : delete_item db iid =
        (true, { db with items := db.items.filter (fun it => !(it.id == iid)) }) := by
      simp only [delete_item]; rw [if_neg h]
    rw [e]
    simp only [Bool.or_eq_true, decide_eq_true_eq, not_or, not_lt, Nat.le_zero] at h
    refine ⟨⟨fun _ => ⟨?_, ?_⟩, fun _ => rfl⟩, fun _ => rfl, fun hc => absurd hc (by simp)⟩
    · intro p hp hpid
      have hmem : p ∈ db.purchases.filter (fun p => p.item_id == iid) :=
        List.mem_filter.mpr ⟨hp, by simpa using hpid⟩
      rw [List.length_eq_zero.mp h.1] at hmem
      exact absurd hmem (List.not_mem_nil p)
    · intro s hs hsid
      have hmem : s ∈ db.sales.filter (fun s => s.item_id == iid) :=
        List.mem_filter.mpr ⟨hs, by simpa using hsid⟩
      rw [List.length_eq_zero.mp h.2] at hmem
      exact absurd hmem (List.not_mem_nil s)

/-- C9: a sale whose quantity is exactly the item's `current_stock` passes
the strict insufficiency guard, commits the sale row, and leaves the item
with stock exactly 0 (and its `sale_price` overwritten with the rate). -/
theorem sale_of_exact_stock_commits (db : DB) (bill date : String) (iid : Nat)
    (r : Rat) (it : Item)
    (hfind : db.items.find? (fun i => i.id == iid) = some it) :
    (add_sale db bill date iid it.current_stock r).1 = (true, "Success") ∧
    (add_sale db bill date iid it.current_stock r).2.sales =
      db.sales ++
        [⟨db.next_sale_id, bill, date, iid, it.current_stock, r, it.current_stock * r⟩] ∧
    { it with current_stock := 0, sale_price := r } ∈
      (add_sale db bill date iid it.current_stock r).2.items := by
  have hge : ¬ it.current_stock < it.current_stock := lt_irrefl _
  rw [add_sale_eq_commit db bill date iid it.current_stock r it hfind hge]
  refine ⟨rfl, rfl, ?_⟩
  have hmem := List.mem_of_find?_eq_some hfind
  have hbeq : (it.id == iid) = true := by
    have h2 := List.find?_some hfind
    simpa using h2
  refine List.mem_map.mpr ⟨it, hmem, ?_⟩
  simp only [if_pos hbeq]
  simp [sub_self]

/-- Witness for C9: selling the full stock 8 of item 1 in `dbSameDate`. -/
theorem sale_of_exact_stock_commits_w :
    (add_sale dbSameDate "S0002" "2024-01-07" 1 8 9).1 = (true, "Success") := by
  have h := sale_of_exact_stock_commits dbSameDate "S0002" "2024-01-07" 1 9
    ⟨1, "Bolt", 8, 5, 8⟩ (by decide)
  exact h.1

/-- C10: a purchase naming an item id that exists in no item row still
returns success and commits both the PurchaseRecord and the StockLogEntry
referencing the missing item (the schema declares foreign keys but
`connect` never issues PRAGMA foreign_keys, so SQLite leaves them off),
while the items table — every stock and price — is left untouched. -/
theorem purchase_of_missing_item_commits (db : DB) (bill date : String) (iid : Nat)
    (q r : Rat) (habs : ∀ it ∈ db.items, it.id ≠ iid) :
    (add_purchase db bill date iid q r).1 = true ∧
    (add_purchase db bill date iid q r).2.items = db.items ∧
    (add_purchase db bill date iid q r).2.purchases =
      db.purchases ++ [⟨db.next_purchase_id, bill, date, iid, q, r, q * r⟩] ∧
    (add_purchase db bill date iid q r).2.stock_log =
      db.stock_log ++ [⟨db.next_log_id, iid, q, LogType.purchase, date, bill⟩] ∧
    (add_purchase db bill date iid q r).2.sales = db.sales := by
  rw [add_purchase_eq]
  refine ⟨rfl, ?_, rfl, rfl, rfl⟩
  refine map_eq_self_of db.items ?_
  intro it hmem
  have hbeq : ¬ (it.id == iid) = true := fun e => habs it hmem (beq_iff_eq.mp e)
  simp only [if_neg hbeq]

/-- Witness for C10: `dbSameDate` has only item id 1; a purchase for id 7
commits and leaves the items table unchanged. -/
theorem purchase_of_missing_item_commits_w :
    (add_purchase dbSameDate "P0099" "2024-02-01" 7 3 2).1 = true ∧
    (add_purchase dbSameDate "P0099" "2024-02-01" 7 3 2).2.items = dbSameDate.items := by
  have h := purchase_of_missing_item_commits dbSameDate "P0099" "2024-02-01" 7 3 2 (by decide)
  exact ⟨h.1, h.2.1⟩

/-- C2 counterexample: from an empty database, `add_purchase` for item id 1
commits although no item exists (claim C10); `add_item` then hands out that
same id 1 to "Widget".  Widget is an item created via `addItem`, the
purchase and the (empty set of) sales on id 1 are all committed, yet its
`current_stock` is 0 while its purchase quantities sum to 5: the claimed
equation `current_stock = Σ purchases − Σ sales` fails on this state. -/
theorem stock_equation_phantom_cex :
    (add_purchase DB.empty "P0001" "2024-01-01" 1 5 1).1 = true ∧
    ((⟨1, "Widget", 0, 0, 0⟩ : Item) ∈ dbPhantom.items) ∧
    sumPurchQty dbPhantom.purchases 1 = 5 ∧
    sumSaleQty dbPhantom.sales 1 = 0 ∧
    ¬ StockInv dbPhantom := by
  refine ⟨by decide, by decide, by decide, by decide, ?_⟩
  intro h
  have he := h ⟨1, "Widget", 0, 0, 0⟩ (by decide)
  exact absurd he (by decide)

/-- C2 amended: the stock equation is an invariant of every operation
sequence in which each committed purchase references an item existing at
the time it is recorded (which also keeps all row references below the item
id counter, `RefsBounded`); without that proviso a purchase recorded
against a free id that `add_item` later reuses breaks the equation. -/
theorem stock_equation_for_valid_traces (db : DB) (ops : List DbOp)
    (h : StockInv db) (hb : RefsBounded db) (hv : validOps db ops = true) :
    StockInv (applyOps db ops) :=
  applyOps_stockinv ops db h hb hv

/-- Witness for the amended C2 on a concrete trace from the empty state. -/
theorem stock_equation_for_valid_traces_w :
    StockInv (applyOps DB.empty
      [DbOp.addItem "Bolt" 0 0,
       DbOp.purchase "P0001" "2024-01-01" 1 10 5,
       DbOp.sale "S0001" "2024-01-02" 1 4 8]) :=
  stock_equation_for_valid_traces DB.empty
    [DbOp.addItem "Bolt" 0 0,
     DbOp.purchase "P0001" "2024-01-01" 1 10 5,
     DbOp.sale "S0001" "2024-01-02" 1 4 8]
    (by unfold StockInv; decide) (by unfold RefsBounded; decide) (by decide)

/-- C8: starting from any state whose items table is well formed (distinct
primary keys below the counter) and has no negative stock — the empty
database and every state the program builds qualify — any sequence of
operations whose purchase and sale quantities are strictly positive (the
pre-validation the screens perform) leaves every item's `current_stock`
nonnegative; in particular every committed sale does. -/
theorem stock_nonneg_for_positive_traces (db : DB) (ops : List DbOp)
    (hw : ItemsWF db) (hn : StockNonneg db)
    (hq : ops.all opQtyPos = true) :
    StockNonneg (applyOps db ops) :=
  applyOps_nonneg ops db hw hn hq

/-- Witness for C8: a trace that sells down to zero and buys again. -/
theorem stock_nonneg_for_positive_traces_w :
    StockNonneg (applyOps DB.empty
      [DbOp.addItem "Nut" 1 2,
       DbOp.purchase "P0001" "2024-03-01" 1 6 1,
       DbOp.sale "S0001" "2024-03-02" 1 6 2,
       DbOp.purchase "P0002" "2024-03-03" 1 2 1]) :=
  stock_nonneg_for_positive_traces DB.empty
    [DbOp.addItem "Nut" 1 2,
     DbOp.purchase "P0001" "2024-03-01" 1 6 1,
     DbOp.sale "S0001" "2024-03-02" 1 6 2,
     DbOp.purchase "P0002" "2024-03-03" 1 2 1]
    (by unfold ItemsWF; exact ⟨by decide, by decide⟩)
    (by unfold StockNonneg; decide) (by decide)

/-- C4, evaluated at the failing input `dbFanout` (one item, one purchase
of quantity 10, two sales of quantities 2 and 3): the double LEFT JOIN of
the listing query repeats the single purchase row once per sale row, so
both `get_all_items` and `search_items` report `purchased_qty = 20` even
though the item's purchase rows sum to 10 (`sold_qty` happens to be right
here because there is exactly one purchase row). -/
theorem item_listing_fanout_eval :
    (get_all_items dbFanout).map (fun row => (row.item_name, row.purchased_qty, row.sold_qty)) =
      [("Widget", 20, 5)] ∧
    sumPurchQty dbFanout.purchases 1 = 10 ∧
    sumSaleQty dbFanout.sales 1 = 5 ∧
    (search_items dbFanout "wid").map
        (fun row => (row.item_name, row.purchased_qty, row.sold_qty)) =
      [("Widget", 20, 5)] :=
  ⟨by decide, by decide, by decide, by decide⟩

/-- C5 counterexample: with the two-character prefix "PX", the code drops
only the first character of "PX0007", fails to parse "X0007", and falls
back to "PX0001" — not the "PX0008" the strip-the-prefix reading demands. -/
theorem next_bill_no_two_char_prefix_cex :
    get_next_bill_no "PX" "PX0007" = "PX0001" ∧
    nextBillNoSpec "PX" "PX0007" = "PX0008" ∧
    ("PX0001" : String) ≠ "PX0008" :=
  ⟨by decide, by decide, by decide⟩

/-- C5 amended: `get_next_bill_no` always strips exactly the FIRST character
of the last bill number, so it agrees with the strip-the-prefix rule
whenever the prefix has length one (whatever the rest of the string), and
the three concrete examples of the claim hold as stated. -/
theorem next_bill_no_drops_first_char :
    (∀ pfx last_bill : String, strLen pfx = 1 →
      get_next_bill_no pfx last_bill = nextBillNoSpec pfx last_bill) ∧
    get_next_bill_no "P" "P0007" = "P0008" ∧
    get_next_bill_no "P" "" = "P0001" ∧
    get_next_bill_no "P" "garbage" = "P0001" := by
  refine ⟨?_, by decide, by decide, by decide⟩
  intro pfx last_bill h
  unfold get_next_bill_no nextBillNoSpec
  rw [h]
  by_cases hl : 1 < strLen last_bill
  · rw [if_pos hl]
  · rw [if_neg hl]
    have hdrop : last_bill.data.drop 1 = [] :=
      List.drop_eq_nil_of_le (by unfold strLen at hl; omega)
    have hnone : pyInt? (strDrop last_bill 1) = none := by
      unfold strDrop
      rw [hdrop]
      rfl
    rw [hnone]

/-! ## Ordering of the bill listing (claim C6) -/

/-- What ORDER BY date DESC, id DESC guarantees between a row and any row
after it: its date is not smaller, and on a date tie its id is larger. -/
def billRK (a b : BillRow) : Prop :=
  strLt a.date b.date = false ∧ (a.date = b.date → b.rec_id < a.rec_id)

theorem ltBillKey_billRK {a b : BillRow} (h : ltBillKey a b = true) : billRK a b := by
  simp only [ltBillKey, Bool.or_eq_true] at h
  rcases h with h | h
  · refine ⟨strLt_asymm h, ?_⟩
    intro he
    rw [he] at h
    simp [strLt_irrefl] at h
  · simp only [Bool.and_eq_true] at h
    rcases h with ⟨hdeq, hrec⟩
    have he : a.date = b.date := beq_iff_eq.mp hdeq
    refine ⟨he ▸ strLt_irrefl b.date, fun _ => by simpa using hrec⟩

theorem ltBillKey_billRK_trans {a b c : BillRow} (h : ltBillKey a b = true)
    (hbc : billRK b c) : billRK a c := by
  simp only [ltBillKey, Bool.or_eq_true] at h
  rcases h with h | h
  · constructor
    · cases hac : strLt a.date c.date
      · rfl
      · have hbc' := strLt_trans h hac
        simp [hbc.1] at hbc'
    · intro he
      rw [he] at h
      simp [hbc.1] at h
  · simp only [Bool.and_eq_true] at h
    rcases h with ⟨hdeq, hrec⟩
    have he : a.date = b.date := beq_iff_eq.mp hdeq
    constructor
    · rw [he]
      exact hbc.1
    · intro hac
      have hbc2 := hbc.2 (by rw [← he, hac])
      have hrec' : b.rec_id < a.rec_id := by simpa using hrec
      omega

theorem sorted_billKey_of_ne (l : List BillRow)
    (hne : l.Pairwise (fun a b => a.rec_id ≠ b.rec_id)) :
    (stableSortBy ltBillKey l).Pairwise billRK := by
  refine @pairwise_stableSortBy BillRow billRK ltBillKey
    (fun a b h => ltBillKey_billRK h)
    (fun a b c h hbc => ltBillKey_billRK_trans h hbc) l ?_
  refine hne.imp_of_mem ?_
  intro a b _ _ hab hfalse
  rcases Bool.or_eq_false_iff.mp hfalse with ⟨h1, h2⟩
  refine ⟨h1, ?_⟩
  intro he
  have hdeq : (b.date == a.date) = true := beq_iff_eq.mpr he.symm
  rw [hdeq] at h2
  simp only [Bool.true_and] at h2
  have : ¬ a.rec_id < b.rec_id := by simpa using h2
  omega

theorem purchRow?_eq_some {db : DB} {term : String} {p : PurchaseRec} {r : BillRow}
    (h : purchRow? db term p = some r) :
    r.kind = "P" ∧ r.rec_id = p.id ∧ r.date = p.date := by
  unfold purchRow? at h
  split at h
  · split at h
    · injection h with h2
      subst h2
      exact ⟨rfl, rfl, rfl⟩
    · cases h
  · cases h

theorem saleRow?_eq_some {db : DB} {term : String} {s : SaleRec} {r : BillRow}
    (h : saleRow? db term s = some r) :
    r.kind = "S" ∧ r.rec_id = s.id ∧ r.date = s.date := by
  unfold saleRow? at h
  split at h
  · split at h
    · injection h with h2
      subst h2
      exact ⟨rfl, rfl, rfl⟩
    · cases h
  · cases h

theorem pairwise_filterMap_of {f : α → Option β} {R : α → α → Prop} {S : β → β → Prop}
    (h : ∀ a b x y, R a b → f a = some x → f b = some y → S x y) :
    ∀ l : List α, l.Pairwise R → (l.filterMap f).Pairwise S
  | [], _ => List.Pairwise.nil
  | a :: as, hl => by
    rcases List.pairwise_cons.mp hl with ⟨ha, has⟩
    cases hf : f a with
    | none =>
      rw [List.filterMap_cons_none hf]
      exact pairwise_filterMap_of h as has
    | some x =>
      rw [List.filterMap_cons_some hf]
      refine List.pairwise_cons.mpr ⟨?_, pairwise_filterMap_of h as has⟩
      intro y hy
      rcases List.mem_filterMap.mp hy with ⟨b, hb, hfb⟩
      exact h a b x y (ha b hb) hf hfb

theorem purchaseBillRows_pairwise_ne (db : DB) (term : String)
    (hp : db.purchases.Pairwise (fun a b => a.id ≠ b.id)) :
    (purchaseBillRows db term).Pairwise (fun a b => a.rec_id ≠ b.rec_id) := by
  refine pairwise_filterMap_of ?_ db.purchases hp
  intro a b x y hab hx hy
  rw [(purchRow?_eq_some hx).2.1, (purchRow?_eq_some hy).2.1]
  exact hab

theorem saleBillRows_pairwise_ne (db : DB) (term : String)
    (hs : db.sales.Pairwise (fun a b => a.id ≠ b.id)) :
    (saleBillRows db term).Pairwise (fun a b => a.rec_id ≠ b.rec_id) := by
  refine pairwise_filterMap_of ?_ db.sales hs
  intro a b x y hab hx hy
  rw [(saleRow?_eq_some hx).2.1, (saleRow?_eq_some hy).2.1]
  exact hab

theorem purchaseBillRows_kind (db : DB) (term : String) :
    ∀ r ∈ purchaseBillRows db term, r.kind = "P" := by
  intro r hr
  rcases List.mem_filterMap.mp hr with ⟨p, _, hp⟩
  exact (purchRow?_eq_some hp).1

theorem saleBillRows_kind (db : DB) (term : String) :
    ∀ r ∈ saleBillRows db term, r.kind = "S" := by
  intro r hr
  rcases List.mem_filterMap.mp hr with ⟨s, _, hs⟩
  exact (saleRow?_eq_some hs).1

theorem sortedPurch_pairwise (db : DB) (term : String)
    (hp : db.purchases.Pairwise (fun a b => a.id ≠ b.id)) :
    (stableSortBy ltBillKey (purchaseBillRows db term)).Pairwise
      (fun a b => billRK a b ∧ a.kind = "P" ∧ b.kind = "P") := by
  have h1 := sorted_billKey_of_ne (purchaseBillRows db term)
    (purchaseBillRows_pairwise_ne db term hp)
  refine h1.imp_of_mem ?_
  intro a b ha hb hr
  have ka := purchaseBillRows_kind db term a ((mem_stableSortBy _ _ _).mp ha)
  have kb := purchaseBillRows_kind db term b ((mem_stableSortBy _ _ _).mp hb)
  exact ⟨hr, ka, kb⟩

theorem sortedSale_pairwise (db : DB) (term : String)
    (hs : db.sales.Pairwise (fun a b => a.id ≠ b.id)) :
    (stableSortBy ltBillKey (saleBillRows db term)).Pairwise
      (fun a b => billRK a b ∧ a.kind = "S" ∧ b.kind = "S") := by
  have h1 := sorted_billKey_of_ne (saleBillRows db term)
    (saleBillRows_pairwise_ne db term hs)
  refine h1.imp_of_mem ?_
  intro a b ha hb hr
  have ka := saleBillRows_kind db term a ((mem_stableSortBy _ _ _).mp ha)
  have kb := saleBillRows_kind db term b ((mem_stableSortBy _ _ _).mp hb)
  exact ⟨hr, ka, kb⟩

/-- C6 counterexample: in `dbSameDate` the purchase row and the sale row
carry the same date, and the sale row was inserted after the purchase row
(the construction of `dbSameDate` commits the purchase first).  The claim
orders equal-date rows by insertion order descending regardless of kind, so
it puts the sale first; `load_bills` lists the purchase first, because the
final Python sort is stable and only keys on the date while the purchase
block precedes the sale block in the concatenation. -/
theorem load_bills_tie_order_cex :
    (load_bills dbSameDate "All Bills" "").map (fun r => (r.kind, r.bill_no, r.date)) =
      [("P", "P0001", "2024-01-05"), ("S", "S0001", "2024-01-05")] ∧
    dbSameDate.purchases = [⟨1, "P0001", "2024-01-05", 1, 10, 5, 50⟩] ∧
    dbSameDate.sales = [⟨1, "S0001", "2024-01-05", 1, 2, 8, 16⟩] :=
  ⟨by decide, by decide, by decide⟩

/-- C6 amended: the listing is exactly the filtered purchase rows together
with the filtered sale rows (each tagged with its kind), sorted by date
descending; among rows of equal date all purchases come BEFORE all sales
(regardless of insertion order), and within one kind equal-date rows are
ordered by row id — insertion order — descending. -/
theorem load_bills_content_and_order (db : DB) (bill_type term : String)
    (hp : db.purchases.Pairwise (fun a b => a.id ≠ b.id))
    (hs : db.sales.Pairwise (fun a b => a.id ≠ b.id)) :
    (load_bills db bill_type term).Perm
      ((if billTypeIncludesPurchases bill_type then purchaseBillRows db term else []) ++
       (if billTypeIncludesSales bill_type then saleBillRows db term else [])) ∧
    (load_bills db bill_type term).Pairwise (fun a b =>
      strLt a.date b.date = false ∧
      (a.date = b.date →
        (a.kind = "P" ∧ b.kind = "S") ∨ (a.kind = b.kind ∧ b.rec_id < a.rec_id))) := by
  constructor
  · simp only [load_bills]
    refine (perm_stableSortBy ltBillDate _).trans ?_
    refine List.Perm.append ?_ ?_
    · by_cases hc : billTypeIncludesPurchases bill_type = true
      · rw [if_pos hc, if_pos hc]
        exact perm_stableSortBy ltBillKey _
      · rw [if_neg hc, if_neg hc]
    · by_cases hc : billTypeIncludesSales bill_type = true
      · rw [if_pos hc, if_pos hc]
        exact perm_stableSortBy ltBillKey _
      · rw [if_neg hc, if_neg hc]
  · simp only [load_bills]
    refine @pairwise_stableSortBy BillRow
      (fun a b =>
        strLt a.date b.date = false ∧
        (a.date = b.date →
          (a.kind = "P" ∧ b.kind = "S") ∨ (a.kind = b.kind ∧ b.rec_id < a.rec_id)))
      ltBillDate ?_ ?_ _ ?_
    · intro a b h
      refine ⟨strLt_asymm h, ?_⟩
      intro he
      have h' : strLt b.date a.date = true := h
      rw [he] at h'
      simp [strLt_irrefl] at h'
    · intro a b c h hbc
      have h' : strLt b.date a.date = true := h
      constructor
      · cases hac : strLt a.date c.date
        · rfl
        · have hx := strLt_trans h' hac
          simp [hbc.1] at hx
      · intro he
        rw [he] at h'
        simp [hbc.1] at h'
    · refine List.pairwise_append.mpr ⟨?_, ?_, ?_⟩
      · by_cases hc : billTypeIncludesPurchases bill_type = true
        · rw [if_pos hc]
          refine (sortedPurch_pairwise db term hp).imp_of_mem ?_
          intro a b _ _ hr _
          exact ⟨hr.1.1, fun he => Or.inr ⟨hr.2.1.trans hr.2.2.symm, hr.1.2 he⟩⟩
        · rw [if_neg hc]
          exact List.Pairwise.nil
      · by_cases hc : billTypeIncludesSales bill_type = true
        · rw [if_pos hc]
          refine (sortedSale_pairwise db term hs).imp_of_mem ?_
          intro a b _ _ hr _
          exact ⟨hr.1.1, fun he => Or.inr ⟨hr.2.1.trans hr.2.2.symm, hr.1.2 he⟩⟩
        · rw [if_neg hc]
          exact List.Pairwise.nil
      · intro a ha b hb hfalse
        have ka : a.kind = "P" := by
          by_cases hc1 : billTypeIncludesPurchases bill_type = true
          · rw [if_pos hc1] at ha
            exact purchaseBillRows_kind db term a ((mem_stableSortBy _ _ _).mp ha)
          · rw [if_neg hc1] at ha
            cases ha
        have kb : b.kind = "S" := by
          by_cases hc2 : billTypeIncludesSales bill_type = true
          · rw [if_pos hc2] at hb
            exact saleBillRows_kind db term b ((mem_stableSortBy _ _ _).mp hb)
          · rw [if_neg hc2] at hb
            cases hb
        exact ⟨hfalse, fun _ => Or.inl ⟨ka, kb⟩⟩

/-- Witness for the amended C6, at the same-date state with all filters
open. -/
theorem load_bills_content_and_order_w :
    (load_bills dbSameDate "All Bills" "").Pairwise (fun a b =>
      strLt a.date b.date = false ∧
      (a.date = b.date →
        (a.kind = "P" ∧ b.kind = "S") ∨ (a.kind = b.kind ∧ b.rec_id < a.rec_id))) :=
  (load_bills_content_and_order dbSameDate "All Bills" "" (by decide) (by decide)).2
